import Mathlib

/-!
Verification of the segmentation / transcription pipeline of
`transcription.py` (long-audio transcription tool).

Shallow embedding conventions:
* file contents and process strings are modelled as `List Char` (`Str`);
* durations in seconds are modelled as exact rationals (`ℚ`), Python's
  `int(...)` truncation toward zero is `pyTrunc`, `//` is `Int.floor`,
  `%` (positive divisor) is `pyMod`;
* subprocess / network calls are parameters of the model (their outcomes
  are inputs), exceptions are `Except` errors.
-/

abbrev Str := List Char

namespace Transcription

/-- Python `int(q)`: truncation toward zero. -/
def pyTrunc (q : ℚ) : ℤ := if 0 ≤ q then ⌊q⌋ else ⌈q⌉

/-- Python `a % b` for floats (`b ≠ 0`): `a - b * ⌊a / b⌋`. -/
def pyMod (a b : ℚ) : ℚ := a - b * ⌊a / b⌋

@[simp] theorem pyTrunc_of_nonneg {q : ℚ} (h : 0 ≤ q) : pyTrunc q = ⌊q⌋ := by
  simp [pyTrunc, h]

@[simp] theorem pyTrunc_intCast (n : ℤ) : pyTrunc (n : ℚ) = n := by
  rcases le_or_lt 0 (n : ℚ) with h | h
  · simp [pyTrunc, h]
  · simp [pyTrunc, not_le.mpr h, Int.ceil_intCast]

/-- `split_audio`, line 139: `num_chunks = int(total_duration / chunk_duration_sec) + 1`
(`List.range` of a nonpositive count is empty, as Python's `range`). -/
def numChunks (total chunkSec : ℚ) : ℕ := (pyTrunc (total / chunkSec) + 1).toNat

/-- The start/duration arithmetic of `split_audio`'s loop (lines 145-152):
window `i` starts at `i * chunk_duration_sec`; its duration is
`total_duration - start` for the last window and `chunk_duration_sec` otherwise. -/
def windows (total chunkSec : ℚ) : List (ℚ × ℚ) :=
  (List.range (numChunks total chunkSec)).map fun (i : ℕ) =>
    ((i : ℚ) * chunkSec,
      if i = numChunks total chunkSec - 1 then total - (i : ℚ) * chunkSec else chunkSec)

/-- `pat` is a leading block of `l` (Boolean, by character comparison). -/
def leadsWith : Str → Str → Bool
  | [], _ => true
  | _ :: _, [] => false
  | a :: as, b :: bs => a == b && leadsWith as bs

/-- Value of a decimal digit character. -/
def digitVal (c : Char) : ℕ := c.toNat - 48

/-- One attempted match, at the head of `l`, of the regular expression
`Duration: (\d\d):(\d\d):(\d\d)\.(\d\d)` of `get_audio_duration` (line 100):
the literal `Duration: ` followed by two-digit hours, minutes, seconds and
centiseconds.  Returns the four captured groups. -/
def parseAt (l : Str) : Option (ℕ × ℕ × ℕ × ℕ) :=
  if leadsWith ("Duration: ".data) l then
    match l.drop 10 with
    | h1 :: h2 :: c1 :: m1 :: m2 :: c2 :: s1 :: s2 :: d :: f1 :: f2 :: _ =>
      if h1.isDigit && h2.isDigit && c1 == ':' && m1.isDigit && m2.isDigit && c2 == ':'
          && s1.isDigit && s2.isDigit && d == '.' && f1.isDigit && f2.isDigit then
        some (digitVal h1 * 10 + digitVal h2, digitVal m1 * 10 + digitVal m2,
              digitVal s1 * 10 + digitVal s2, digitVal f1 * 10 + digitVal f2)
      else none
    | _ => none
  else none

/-- `re.search` over ffmpeg's diagnostic output: first match of the duration
pattern at any position, scanning left to right. -/
def parseDuration : Str → Option (ℕ × ℕ × ℕ × ℕ)
  | [] => none
  | c :: rest =>
    match parseAt (c :: rest) with
    | some g => some g
    | none => parseDuration rest

/-- Line 106: `hours * 3600 + minutes * 60 + seconds + centiseconds / 100`. -/
def durationSeconds (g : ℕ × ℕ × ℕ × ℕ) : ℚ :=
  g.1 * 3600 + g.2.1 * 60 + g.2.2.1 + (g.2.2.2 : ℚ) / 100

/-- Error message raised at line 103 when no duration token is found. -/
def durErrMsg : Str := "Impossible de déterminer la durée du fichier audio".data

/-- `get_audio_duration` (lines 93-108): scan the media-inspection tool's
diagnostic output for a duration token; raise `ValueError` when absent. -/
def get_audio_duration (stderrOut : Str) : Except Str ℚ :=
  match parseDuration stderrOut with
  | none => .error durErrMsg
  | some g => .ok (durationSeconds g)

/-- `format_time` hours (line 112): `int(seconds // 3600)`
(float floor-division, then truncation toward zero of an integral value). -/
def ftHours (q : ℚ) : ℤ := pyTrunc ((⌊q / 3600⌋ : ℤ) : ℚ)

/-- `format_time` minutes (line 113): `int((seconds % 3600) // 60)`. -/
def ftMinutes (q : ℚ) : ℤ := pyTrunc ((⌊pyMod q 3600 / 60⌋ : ℤ) : ℚ)

/-- `format_time` seconds (line 114): `int(seconds % 60)`. -/
def ftSecs (q : ℚ) : ℤ := pyTrunc (pyMod q 60)

/-- The time value, in whole seconds, that the `HH:MM:SS` string rendered by
`format_time` stands for. -/
def fmtVal (q : ℚ) : ℤ := ftHours q * 3600 + ftMinutes q * 60 + ftSecs q

/-- Decimal rendering of an integer. -/
def intStr (z : ℤ) : Str := (Int.repr z).data

/-- Python `f"{z:02d}"`: pad with leading zeros to width 2. -/
def pad2 (z : ℤ) : Str :=
  let s := intStr z
  if s.length < 2 then List.replicate (2 - s.length) '0' ++ s else s

/-- Python `f"{n:04d}"`: pad with leading zeros to width 4. -/
def pad4 (n : ℕ) : Str :=
  let s := (Nat.repr n).data
  if s.length < 4 then List.replicate (4 - s.length) '0' ++ s else s

/-- `format_time` (lines 110-115): `f"{hours:02d}:{minutes:02d}:{secs:02d}"`. -/
def format_time (q : ℚ) : Str :=
  pad2 (ftHours q) ++ (":".data) ++ pad2 (ftMinutes q) ++ (":".data) ++ pad2 (ftSecs q)

/-- Segment file name (lines 159-162):
`os.path.join(temp_folder, f"segment_{i:04d}_{start_fmt.replace(':', '-')}.wav")`. -/
def segFileName (temp : Str) (i : ℕ) (startFmt : Str) : Str :=
  temp ++ ("/".data) ++ ("segment_".data) ++ pad4 i ++ ("_".data)
    ++ startFmt.map (fun c => if c = ':' then '-' else c) ++ (".wav".data)

/-- The ffmpeg extraction command of lines 165-173. -/
def ffmpegCmd (audio startFmt durFmt outName : Str) : List Str :=
  ["ffmpeg".data, "-y".data, "-hide_banner".data, "-loglevel".data, "error".data,
   "-ss".data, startFmt, "-i".data, audio, "-t".data, durFmt,
   "-ac".data, "1".data, "-ar".data, "16000".data, outName]

/-- Outcome of `split_audio`: the extraction commands issued, the segment
files created, and the returned list (or the propagated exception). -/
structure SplitResult where
  cmds : List (List Str)
  files : List Str
  result : Except Str (List Str)

/-- The extraction loop of `split_audio` (lines 145-183): for each window,
format start/duration, build the ffmpeg command and run it (`check=True`:
a failing extraction raises and aborts the whole job); on success the
segment path is appended to the returned list. -/
def extractLoop (audio temp : Str) (extractOk : ℕ → Bool) :
    List (ℕ × ℚ × ℚ) → List (List Str) → List Str → SplitResult
  | [], cmds, files => ⟨cmds, files, .ok files⟩
  | (i, s, d) :: rest, cmds, files =>
    let sf := format_time s
    let df := format_time d
    let out := segFileName temp i sf
    let cmd := ffmpegCmd audio sf df out
    if extractOk i then extractLoop audio temp extractOk rest (cmds ++ [cmd]) (files ++ [out])
    else ⟨cmds ++ [cmd], files, .error (("ffmpeg failed on segment ".data) ++ pad4 i)⟩

/-- `split_audio` (lines 117-186): probe the duration (a parse failure
propagates before any command is built), then extract one file per window.
`stderrOut` is the media-inspection tool's diagnostic output and
`extractOk i` tells whether the `i`-th extraction subprocess succeeds. -/
def split_audio (stderrOut audio temp : Str) (chunkMin : ℕ) (extractOk : ℕ → Bool) :
    SplitResult :=
  match get_audio_duration stderrOut with
  | .error e => ⟨[], [], .error e⟩
  | .ok total =>
    extractLoop audio temp extractOk ((windows total ((chunkMin : ℚ) * 60)).enum) [] []

/-- The literal segment separator of `process_file` (lines 392 and 402). -/
def SEP : Str := "\n\n--- Nouveau segment ---\n\n".data

/-- The in-memory accumulation of `process_file` (lines 379-394): fold over
the enumerated segment texts, prepending the separator for every index
greater than 0. `k` is the index of the first remaining text. -/
def allTextAux (k : ℕ) : List Str → Str
  | [] => []
  | t :: rest => (if k = 0 then t else SEP ++ t) ++ allTextAux (k + 1) rest

/-- `all_text` after the loop, for the given ordered segment texts. -/
def allText (texts : List Str) : Str := allTextAux 0 texts

/-- Number of positions of `s` at which `pat` occurs as a contiguous
substring (occurrences may overlap). -/
def countSubstr (s pat : Str) : ℕ :=
  ((List.range (s.length + 1)).filter fun i => leadsWith pat (s.drop i)).length

/-- Log line appended by the `except` block (line 442): `f"\nERREUR: {e}\n"`. -/
def errLine (e : Str) : Str := ("\nERREUR: ".data) ++ e ++ ("\n".data)

/-- Warning printed when `os.rmdir` of the temporary folder fails (line 427). -/
def rmdirWarning : Str :=
  "⚠️ Impossible de supprimer le dossier temporaire".data

/-- The external inputs of one `process_file` run.  Wall-clock strings
(header, per-segment log lines, the final timing line) and the outcomes of
subprocess/network/filesystem calls are inputs of the model:
* `split` is the pair (segment files created by `split_audio`, its result);
* `transcribe i` is the outcome of transcribing the `i`-th segment
  (an `Except.error` models an uncaught exception);
* `removeRes k` is the outcome of the `k`-th `os.remove` during cleanup
  (`some e` models a raised exception);
* `rmdirOk` tells whether `os.rmdir(temp_folder)` succeeds;
* `initOutput`/`initLog` are the contents of the output and log files
  before the run. -/
structure JobEnv where
  header : Str
  segLogLine : ℕ → Str
  finalLogLine : Str
  split : List Str × Except Str (List Str)
  transcribe : ℕ → Except Str Str
  removeRes : ℕ → Option Str
  rmdirOk : Bool
  initOutput : Str
  initLog : Str

/-- Observable state of one `process_file` run: output file content, log
file content, the in-memory `all_text`, the segment files still existing,
whether the temporary directory still exists, and the warnings printed. -/
structure JobState where
  output : Str
  log : Str
  text : Str
  files : List Str
  tempDirExists : Bool
  warnings : List Str
deriving DecidableEq

/-- The per-segment loop of `process_file` (lines 381-416): transcribe the
segment at position `i`; on success append the fragment (separator-prefixed
for `i > 0`) to `all_text` and to the output file, and append a log line;
an exception stops the loop and propagates. -/
def runLoop (env : JobEnv) : ℕ → List Str → JobState → JobState × Option Str
  | _, [], st => (st, none)
  | i, _seg :: rest, st =>
    match env.transcribe i with
    | .error e => (st, some e)
    | .ok t =>
      let frag := if i = 0 then t else SEP ++ t
      runLoop env (i + 1) rest
        { st with text := st.text ++ frag, output := st.output ++ frag,
                  log := st.log ++ env.segLogLine i }

/-- The cleanup loop of `process_file` (lines 420-422): for each segment, if
its file exists, `os.remove` it; a raised exception propagates. -/
def removeFiles (env : JobEnv) : ℕ → List Str → JobState → JobState × Option Str
  | _, [], st => (st, none)
  | k, s :: rest, st =>
    if s ∈ st.files then
      match env.removeRes k with
      | some e => (st, some e)
      | none => removeFiles env (k + 1) rest { st with files := st.files.erase s }
    else removeFiles env (k + 1) rest st

/-- Lines 424-427: `os.rmdir` of the temporary folder inside a bare
`try/except` — a failure only prints a warning. -/
def rmdirStep (env : JobEnv) (st : JobState) : JobState :=
  if env.rmdirOk then { st with tempDirExists := false }
  else { st with warnings := st.warnings ++ [rmdirWarning] }

/-- `process_file` (lines 332-445).  The log file is opened in mode `"w"`
(truncated, line 364) and receives the header; the output file is only ever
opened in mode `"a"` (append, line 398).  The `try` block covers
segmentation, the per-segment loop and cleanup; the `except` block appends
`f"\nERREUR: {e}\n"` to the log and re-raises the same exception. -/
def process_file (env : JobEnv) : JobState × Except Str Unit :=
  let st0 : JobState :=
    { output := env.initOutput, log := env.header, text := [],
      files := env.split.1, tempDirExists := true, warnings := [] }
  match env.split.2 with
  | .error e => ({ st0 with log := st0.log ++ errLine e }, .error e)
  | .ok segs =>
    match runLoop env 0 segs st0 with
    | (st1, some e) => ({ st1 with log := st1.log ++ errLine e }, .error e)
    | (st1, none) =>
      match removeFiles env 0 segs st1 with
      | (st2, some e) => ({ st2 with log := st2.log ++ errLine e }, .error e)
      | (st2, none) =>
        let st3 := rmdirStep env st2
        ({ st3 with log := st3.log ++ env.finalLogLine }, .ok ())

/-- The fragments appended by the first `len` loop iterations, starting at
position `i` (empty fragment recorded for a failing position, which is
where the loop stops). -/
def loopText (tr : ℕ → Except Str Str) : ℕ → ℕ → Str
  | _, 0 => []
  | i, len + 1 =>
    (match tr i with
     | .ok t => if i = 0 then t else SEP ++ t
     | .error _ => []) ++ loopText tr (i + 1) len

/-- The log lines appended by the first `len` loop iterations. -/
def loopLog (line : ℕ → Str) : ℕ → ℕ → Str
  | _, 0 => []
  | i, len + 1 => line i ++ loopLog line (i + 1) len

/-- One polled AssemblyAI status response (fields of the JSON object read
by `transcribe_segment_assemblyai`, lines 268-280). -/
structure AaiResp where
  status : Str
  text : Str
  errMsg : Str
deriving DecidableEq

/-- The polling loop of `transcribe_segment_assemblyai` (lines 268-280):
poll `k`-th status; on `completed` return the text, on `error` print the
provider's message and return the empty string, otherwise `time.sleep(5)`
and poll again.  `fuel` bounds the unbounded `while True` (the source polls
indefinitely); the returned number is the total seconds slept. -/
def pollLoop (poll : ℕ → AaiResp) : ℕ → ℕ → ℕ → Option (Str × ℕ)
  | 0, _, _ => none
  | fuel + 1, k, slept =>
    let r := poll k
    if r.status = ("completed".data) then some (r.text, slept)
    else if r.status = ("error".data) then some ([], slept)
    else pollLoop poll fuel (k + 1) (slept + 5)

/-- The placeholder AssemblyAI credential of `API_KEYS` (line 40). -/
def plcAAI : Str := "VOTRE_CLE_API_ASSEMBLY_AI".data

/-- Warning printed at line 226 when the AssemblyAI key is unconfigured. -/
def warnAAI : Str :=
  "⚠️ Veuillez configurer votre clé API Assembly AI dans le script".data

/-- Network/provider inputs of one `transcribe_segment_assemblyai` call:
the configured key, the outcome of the upload POST and of the transcript
POST (exception or HTTP status code), and the polled status responses. -/
structure AaiEnv where
  apiKey : Str
  upload : Except Str ℕ
  submit : Except Str ℕ
  poll : ℕ → AaiResp

/-- `transcribe_segment_assemblyai` (lines 213-280): placeholder key →
warn and return `""` before any network call; non-200 upload or submit →
print the error and return `""`; otherwise poll until a terminal status.
Returns (printed warnings, exception or (`none` = still polling after
`fuel` polls, `some` = returned text)). -/
def transcribe_segment_assemblyai (env : AaiEnv) (fuel : ℕ) :
    List Str × Except Str (Option Str) :=
  if env.apiKey = plcAAI then ([warnAAI], .ok (some []))
  else
    match env.upload with
    | .error ex => ([], .error ex)
    | .ok code =>
      if code ≠ 200 then (["❌ Erreur lors du téléversement".data], .ok (some []))
      else
        match env.submit with
        | .error ex => ([], .error ex)
        | .ok code2 =>
          if code2 ≠ 200 then
            (["❌ Erreur lors de la demande de transcription".data], .ok (some []))
          else
            match pollLoop env.poll fuel 0 0 with
            | none => ([], .ok none)
            | some (t, _) => ([], .ok (some t))

/-- The placeholder OpenAI credential of `API_KEYS` (line 41). -/
def plcOAI : Str := "VOTRE_CLE_API_OPENAI".data

/-- Warning printed at line 295 when the OpenAI key is unconfigured. -/
def warnOAI : Str :=
  "⚠️ Veuillez configurer votre clé API OpenAI dans le script".data

/-- `transcribe_segment_openai` (lines 282-310): placeholder key → warn and
return `""` before any network call; otherwise the synchronous API call's
outcome (its text, or its exception) is returned as is. -/
def transcribe_segment_openai (apiKey : Str) (call : Except Str Str) :
    List Str × Except Str Str :=
  if apiKey = plcOAI then ([warnOAI], .ok []) else ([], call)

/-- Concrete two-segment job whose second segment's transcription raises
`boom` (segmentation succeeded, both segment files exist). -/
def envSegFail : JobEnv where
  header := "H".data
  segLogLine := fun _ => "L".data
  finalLogLine := "F".data
  split := (["s0".data, "s1".data], .ok ["s0".data, "s1".data])
  transcribe := fun i => if i = 0 then .ok ("a".data) else .error ("boom".data)
  removeRes := fun _ => none
  rmdirOk := true
  initOutput := "P".data
  initLog := "old".data

/-- Concrete two-segment job where every step succeeds except `os.rmdir` of
the temporary folder. -/
def envAllOk : JobEnv where
  header := "H".data
  segLogLine := fun _ => "L".data
  finalLogLine := "F".data
  split := (["s0".data, "s1".data], .ok ["s0".data, "s1".data])
  transcribe := fun i => .ok (if i = 0 then "a".data else "b".data)
  removeRes := fun _ => none
  rmdirOk := false
  initOutput := "P".data
  initLog := "old".data

/-- Concrete AssemblyAI call whose polled status is non-terminal twice and
then `error`. -/
def aaiTermEnv : AaiEnv where
  apiKey := "KEY".data
  upload := .ok 200
  submit := .ok 200
  poll := fun k =>
    if k < 2 then ⟨"processing".data, [], []⟩ else ⟨"error".data, "T".data, "msg".data⟩

/-- Concrete AssemblyAI call with the placeholder key and a network that
would raise on any request. -/
def aaiPlaceholderEnv : AaiEnv where
  apiKey := plcAAI
  upload := .error ("network down".data)
  submit := .error ("network down".data)
  poll := fun _ => AaiResp.mk ("queued".data) [] []

/-! ## Lemmas about the segmenter -/

theorem windows_length (total chunk : ℚ) :
    (windows total chunk).length = numChunks total chunk := by
  simp only [windows, List.length_map, List.length_range]

theorem numChunks_eq {total chunk : ℚ} (h0 : 0 ≤ total) (hc : 0 < chunk) :
    numChunks total chunk = (⌊total / chunk⌋).toNat + 1 := by
  have hq : 0 ≤ total / chunk := div_nonneg h0 hc.le
  have hf : 0 ≤ ⌊total / chunk⌋ := Int.floor_nonneg.mpr hq
  rw [numChunks, pyTrunc_of_nonneg hq]
  omega

theorem windows_get (total chunk : ℚ) (i : ℕ) (hi : i < (windows total chunk).length) :
    (windows total chunk).get ⟨i, hi⟩ =
      ((i : ℚ) * chunk,
        if i = numChunks total chunk - 1 then total - (i : ℚ) * chunk else chunk) := by
  simp only [windows, List.get_eq_getElem, List.getElem_map, List.getElem_range]

theorem floor_mul_le {total chunk : ℚ} (hc : 0 < chunk) :
    ((⌊total / chunk⌋ : ℚ)) * chunk ≤ total :=
  (le_div_iff₀ hc).mp (Int.floor_le _)

theorem lt_floor_succ_mul {total chunk : ℚ} (hc : 0 < chunk) :
    total < ((⌊total / chunk⌋ : ℚ) + 1) * chunk := by
  have h := Int.lt_floor_add_one (total / chunk)
  have h2 : total / chunk < ((⌊total / chunk⌋ : ℚ) + 1) := by exact_mod_cast h
  exact (div_lt_iff₀ hc).mp h2

/-- C1: For every `total_duration ≥ 0` and every `chunk_seconds > 0`, the
windows produced by `split_audio`'s start/duration arithmetic are nonempty,
the first starts at 0, each window starts where the previous one ends
(contiguous), no window has negative duration, their half-open intervals
cover exactly `[0, total_duration)`, and they are pairwise disjoint (no
gaps, no overlaps). -/
theorem C1_windows_partition (total chunk : ℚ) (h0 : 0 ≤ total) (hc : 0 < chunk) :
    windows total chunk ≠ [] ∧
    (∀ h1 : 0 < (windows total chunk).length, ((windows total chunk).get ⟨0, h1⟩).1 = 0) ∧
    (∀ i (hi : i + 1 < (windows total chunk).length),
      ((windows total chunk).get ⟨i + 1, hi⟩).1 =
        ((windows total chunk).get ⟨i, Nat.lt_of_succ_lt hi⟩).1 +
          ((windows total chunk).get ⟨i, Nat.lt_of_succ_lt hi⟩).2) ∧
    (∀ p ∈ windows total chunk, 0 ≤ p.2) ∧
    (⋃ p ∈ windows total chunk, Set.Ico p.1 (p.1 + p.2)) = Set.Ico 0 total ∧
    List.Pairwise
      (fun p q => Disjoint (Set.Ico p.1 (p.1 + p.2)) (Set.Ico q.1 (q.1 + q.2)))
      (windows total chunk) := by
  have hq : 0 ≤ total / chunk := div_nonneg h0 hc.le
  have hF0 : (0 : ℤ) ≤ ⌊total / chunk⌋ := Int.floor_nonneg.mpr hq
  set F : ℤ := ⌊total / chunk⌋ with hF
  have hN : numChunks total chunk = F.toNat + 1 := numChunks_eq h0 hc
  have hcastF : ((F.toNat : ℕ) : ℚ) = (F : ℚ) := by
    exact_mod_cast congrArg (fun z : ℤ => (z : ℚ)) (Int.toNat_of_nonneg hF0)
  have hFle : ((F : ℚ)) * chunk ≤ total := floor_mul_le hc
  have hFlt : total < ((F : ℚ) + 1) * chunk := lt_floor_succ_mul hc
  have hlen : (windows total chunk).length = F.toNat + 1 := by
    rw [windows_length, hN]
  refine ⟨?_, ?_, ?_, ?_, ?_, ?_⟩
  · intro h
    rw [h] at hlen
    simp at hlen
  · intro h1
    rw [windows_get]
    simp
  · intro i hi
    rw [windows_get, windows_get]
    have hne : i ≠ numChunks total chunk - 1 := by omega
    rw [if_neg hne]
    push_cast
    ring
  · intro p hp
    rcases List.mem_map.mp hp with ⟨i, hiR, rfl⟩
    rw [List.mem_range] at hiR
    dsimp only
    split_ifs with hlast
    · have hieq : i = F.toNat := by omega
      subst hieq
      rw [hcastF]
      linarith
    · exact hc.le
  · ext x
    simp only [Set.mem_iUnion, Set.mem_Ico, exists_prop, List.mem_map, List.mem_range,
      windows]
    constructor
    · rintro ⟨p, ⟨i, hi, rfl⟩, hx1, hx2⟩
      dsimp only at hx1 hx2
      have hstart : (0 : ℚ) ≤ (i : ℚ) * chunk := by positivity
      refine ⟨le_trans hstart hx1, ?_⟩
      split_ifs at hx2 with hlast
      · linarith
      · have hi1 : i + 1 ≤ F.toNat := by omega
        have hcast : ((i : ℚ) + 1) ≤ (F : ℚ) := by
          rw [← hcastF]
          exact_mod_cast hi1
        nlinarith
    · rintro ⟨hx0, hxt⟩
      have hj0 : (0 : ℤ) ≤ ⌊x / chunk⌋ := Int.floor_nonneg.mpr (div_nonneg hx0 hc.le)
      have hjx : ((⌊x / chunk⌋ : ℚ)) * chunk ≤ x := floor_mul_le hc
      have hxj1 : x < ((⌊x / chunk⌋ : ℚ) + 1) * chunk := lt_floor_succ_mul hc
      have hjF : ⌊x / chunk⌋ ≤ F := by
        apply Int.floor_le_floor
        gcongr
      set j : ℤ := ⌊x / chunk⌋ with hjdef
      have hcastj : ((j.toNat : ℕ) : ℚ) = (j : ℚ) := by
        exact_mod_cast congrArg (fun z : ℤ => (z : ℚ)) (Int.toNat_of_nonneg hj0)
      by_cases hcase : j.toNat = F.toNat
      · refine ⟨_, ⟨j.toNat, by omega, rfl⟩, ?_, ?_⟩
        · dsimp only
          rw [hcastj]
          exact hjx
        · dsimp only
          rw [if_pos (by omega)]
          linarith
      · have hlt : j.toNat < F.toNat := by
          have := Int.toNat_le_toNat hjF
          omega
        refine ⟨_, ⟨j.toNat, by omega, rfl⟩, ?_, ?_⟩
        · dsimp only
          rw [hcastj]
          exact hjx
        · dsimp only
          rw [if_neg (by omega)]
          have heq : ((j.toNat : ℚ)) * chunk + chunk = ((j : ℚ) + 1) * chunk := by
            rw [hcastj]; ring
          rw [heq]
          exact hxj1
  · rw [windows, List.pairwise_map]
    refine List.Pairwise.imp_of_mem ?_ (List.pairwise_lt_range _)
    intro a b ha hb hab
    rw [List.mem_range] at ha hb
    dsimp only
    have hA : a ≠ numChunks total chunk - 1 := by omega
    rw [if_neg hA, Set.Ico_disjoint_Ico]
    have h1 : ((a : ℚ) + 1) * chunk ≤ (b : ℚ) * chunk := by
      have hab' : ((a : ℚ) + 1) ≤ (b : ℚ) := by exact_mod_cast hab
      nlinarith
    calc min ((a : ℚ) * chunk + chunk) _
        ≤ (a : ℚ) * chunk + chunk := min_le_left _ _
      _ = ((a : ℚ) + 1) * chunk := by ring
      _ ≤ (b : ℚ) * chunk := h1
      _ ≤ max ((a : ℚ) * chunk) ((b : ℚ) * chunk) := le_max_right _ _

/-- C1 witness: the partition property instantiated at
`total_duration = 1500 s`, `chunk_seconds = 600 s`. -/
theorem C1_windows_partition_witness :
    (0 : ℚ) ≤ 1500 ∧ (0 : ℚ) < 600 ∧
      (windows 1500 600 ≠ [] ∧
      (∀ h1 : 0 < (windows 1500 600).length, ((windows 1500 600).get ⟨0, h1⟩).1 = 0) ∧
      (∀ i (hi : i + 1 < (windows 1500 600).length),
        ((windows 1500 600).get ⟨i + 1, hi⟩).1 =
          ((windows 1500 600).get ⟨i, Nat.lt_of_succ_lt hi⟩).1 +
            ((windows 1500 600).get ⟨i, Nat.lt_of_succ_lt hi⟩).2) ∧
      (∀ p ∈ windows 1500 600, 0 ≤ p.2) ∧
      (⋃ p ∈ windows 1500 600, Set.Ico p.1 (p.1 + p.2)) = Set.Ico 0 1500 ∧
      List.Pairwise
        (fun p q => Disjoint (Set.Ico p.1 (p.1 + p.2)) (Set.Ico q.1 (q.1 + q.2)))
        (windows 1500 600)) :=
  ⟨by norm_num, by norm_num, C1_windows_partition 1500 600 (by norm_num) (by norm_num)⟩

theorem pyMod_nonneg {a b : ℚ} (hb : 0 < b) : 0 ≤ pyMod a b := by
  have h := (le_div_iff₀ hb).mp (Int.floor_le (a / b))
  rw [pyMod]
  nlinarith

theorem pyMod_lt {a b : ℚ} (hb : 0 < b) : pyMod a b < b := by
  have h := @lt_floor_succ_mul a b hb
  rw [pyMod]
  nlinarith

theorem windows_getLast_eq {total chunk : ℚ} (h0 : 0 ≤ total) (hc : 0 < chunk) :
    (windows total chunk).getLast? =
      some ((((⌊total / chunk⌋).toNat : ℕ) : ℚ) * chunk,
        total - (((⌊total / chunk⌋).toNat : ℕ) : ℚ) * chunk) := by
  have hN := numChunks_eq h0 hc
  rw [windows, hN, List.range_succ, List.map_append, List.map_singleton,
    List.getLast?_concat]
  simp

/-- C3: when the chunk size divides the total duration evenly
(`total = k * chunk_seconds`), `split_audio` produces `k + 1 = floor(total /
chunk_seconds) + 1` windows, and the last one is the zero-length window
`[total, total)`.  (See the witness for the concrete 600 s / 10 min case:
exactly the two windows `[0,600)` and `[600,600)`.) -/
theorem C3_even_division (k : ℕ) (chunk : ℚ) (hc : 0 < chunk) :
    (windows ((k : ℚ) * chunk) chunk).length = k + 1 ∧
    (windows ((k : ℚ) * chunk) chunk).getLast? = some ((k : ℚ) * chunk, 0) := by
  have h0 : 0 ≤ (k : ℚ) * chunk := by positivity
  have hdiv : ((k : ℚ) * chunk) / chunk = (k : ℚ) := mul_div_cancel_right₀ _ hc.ne'
  have hfl : ⌊((k : ℚ) * chunk) / chunk⌋ = (k : ℤ) := by
    rw [hdiv]
    exact_mod_cast Int.floor_natCast k
  constructor
  · rw [windows_length, numChunks_eq h0 hc, hfl, Int.toNat_natCast]
  · rw [windows_getLast_eq h0 hc, hfl, Int.toNat_natCast]
    norm_num

/-- C3 witness: `total_duration = 600 s`, `chunk_seconds = 600 s` gives
exactly the two windows `[0,600)` and the zero-length `[600,600)`. -/
theorem C3_even_division_witness :
    (0 : ℚ) < 600 ∧ windows 600 600 = [(0, 600), (600, 0)] ∧
      ((windows (((1 : ℕ) : ℚ) * 600) 600).length = 1 + 1 ∧
       (windows (((1 : ℕ) : ℚ) * 600) 600).getLast? = some ((((1 : ℕ) : ℚ)) * 600, 0)) :=
  ⟨by norm_num,
   by
    have h : numChunks 600 600 = 2 := by
      have h1 : pyTrunc ((600 : ℚ) / 600) = 1 := by norm_num [pyTrunc]
      rw [numChunks, h1]
      rfl
    simp only [windows, h]
    norm_num [List.range_succ],
   C3_even_division 1 600 (by norm_num)⟩

/-- The integer that `format_time`'s `HH:MM:SS` rendering stands for is the
floor of the input (truncation toward zero on the nonnegative inputs the
program feeds it). -/
theorem fmtVal_eq_floor (q : ℚ) : fmtVal q = ⌊q⌋ := by
  set H : ℤ := ⌊q / 3600⌋ with hH
  set M : ℤ := ⌊pyMod q 3600 / 60⌋ with hM
  have hr : pyMod q 3600 = q - 3600 * (H : ℚ) := rfl
  have hq60 : q / 60 = pyMod q 3600 / 60 + ((60 * H : ℤ) : ℚ) := by
    rw [hr]; push_cast; ring
  have hfloor60 : ⌊q / 60⌋ = M + 60 * H := by
    rw [hq60, Int.floor_add_int]
  have hs : pyMod q 60 = pyMod q 3600 - 60 * (M : ℚ) := by
    rw [pyMod, pyMod, hfloor60, ← hH]
    push_cast
    ring
  have h1 : ⌊pyMod q 3600⌋ = ⌊q⌋ - 3600 * H := by
    have he : pyMod q 3600 = q - ((3600 * H : ℤ) : ℚ) := by rw [hr]; push_cast; ring
    rw [he, Int.floor_sub_int]
  have h2 : ⌊pyMod q 60⌋ = ⌊pyMod q 3600⌋ - 60 * M := by
    have he : pyMod q 60 = pyMod q 3600 - ((60 * M : ℤ) : ℚ) := by rw [hs]; push_cast; ring
    rw [he, Int.floor_sub_int]
  have hm0 : 0 ≤ pyMod q 60 := pyMod_nonneg (by norm_num)
  unfold fmtVal ftHours ftMinutes ftSecs
  rw [pyTrunc_intCast, pyTrunc_intCast, pyTrunc_of_nonneg hm0, ← hH, ← hM, h2, h1]
  ring

/-- C9: the start offsets and durations handed to the extraction command go
through `format_time`, whose rendered value truncates fractional seconds to
the whole-second floor (`q - fract q`).  Window starts are whole multiples
of the chunk size, so they are requested exactly; every requested duration
is the floor of the real one; and the last window's requested duration
drops exactly the fractional (centisecond) part of the probed total. -/
theorem C9_format_time_truncation (total : ℚ) (m : ℕ) (h0 : 0 ≤ total) (hm : 0 < m) :
    (∀ q : ℚ, 0 ≤ q → (fmtVal q : ℚ) = q - Int.fract q) ∧
    (∀ p ∈ windows total ((m : ℚ) * 60),
      (fmtVal p.1 : ℚ) = p.1 ∧ (fmtVal p.2 : ℚ) = p.2 - Int.fract p.2) ∧
    (∀ p, (windows total ((m : ℚ) * 60)).getLast? = some p →
      (fmtVal p.2 : ℚ) = p.2 - Int.fract total) := by
  have hm' : (0 : ℚ) < (m : ℚ) := by exact_mod_cast hm
  have hc : (0 : ℚ) < (m : ℚ) * 60 := by nlinarith
  have key : ∀ q : ℚ, (fmtVal q : ℚ) = q - Int.fract q := by
    intro q
    rw [fmtVal_eq_floor]
    exact_mod_cast (Int.self_sub_fract q).symm
  refine ⟨fun q _ => key q, ?_, ?_⟩
  · intro p hp
    rcases List.mem_map.mp hp with ⟨i, hiR, rfl⟩
    dsimp only
    refine ⟨?_, key _⟩
    rw [key]
    have hfr : Int.fract ((i : ℚ) * ((m : ℚ) * 60)) = 0 := by
      have he : ((i : ℚ)) * ((m : ℚ) * 60) = ((i * m * 60 : ℕ) : ℚ) := by push_cast; ring
      rw [he, Int.fract_natCast]
    rw [hfr]
    ring
  · intro p hp
    rw [windows_getLast_eq h0 hc] at hp
    have hp' := Option.some.inj hp
    rw [← hp']
    dsimp only
    rw [key]
    congr 1
    have he : total - ((⌊total / ((m : ℚ) * 60)⌋.toNat : ℚ)) * ((m : ℚ) * 60)
        = total - (((⌊total / ((m : ℚ) * 60)⌋.toNat * m * 60 : ℕ) : ℤ) : ℚ) := by
      push_cast
      ring
    rw [he, Int.fract_sub_int]

/-- C9 witness: a probed total of 90.25 s with 1-minute chunks; the last
window's requested duration drops the quarter-second fractional part. -/
theorem C9_format_time_truncation_witness :
    (0 : ℚ) ≤ 90.25 ∧ 0 < 1 ∧
      ((∀ q : ℚ, 0 ≤ q → (fmtVal q : ℚ) = q - Int.fract q) ∧
      (∀ p ∈ windows 90.25 (((1 : ℕ) : ℚ) * 60),
        (fmtVal p.1 : ℚ) = p.1 ∧ (fmtVal p.2 : ℚ) = p.2 - Int.fract p.2) ∧
      (∀ p, (windows 90.25 (((1 : ℕ) : ℚ) * 60)).getLast? = some p →
        (fmtVal p.2 : ℚ) = p.2 - Int.fract 90.25)) :=
  ⟨by norm_num, by norm_num, C9_format_time_truncation 90.25 1 (by norm_num) (by norm_num)⟩

/-! ## Lemmas about the orchestrator -/

theorem runLoop_files (env : JobEnv) :
    ∀ (l : List Str) (i : ℕ) (st : JobState), ((runLoop env i l st).1).files = st.files := by
  intro l
  induction l with
  | nil => intro i st; rfl
  | cons s rest ih =>
    intro i st
    rw [runLoop]
    cases h : env.transcribe i with
    | error e => rfl
    | ok t => exact ih (i + 1) _

theorem runLoop_inv (env : JobEnv) (C : Str) :
    ∀ (l : List Str) (i : ℕ) (st : JobState), st.output = C ++ st.text →
      ((runLoop env i l st).1).output = C ++ ((runLoop env i l st).1).text := by
  intro l
  induction l with
  | nil => intro i st h; exact h
  | cons s rest ih =>
    intro i st h
    rw [runLoop]
    cases htr : env.transcribe i with
    | error e => exact h
    | ok t =>
      apply ih
      simp only [h, List.append_assoc]

theorem removeFiles_eta (env : JobEnv) :
    ∀ (l : List Str) (k : ℕ) (st : JobState),
      ∃ fl, ((removeFiles env k l st).1) = { st with files := fl } := by
  intro l
  induction l with
  | nil => intro k st; exact ⟨st.files, rfl⟩
  | cons s rest ih =>
    intro k st
    rw [removeFiles]
    by_cases hmem : s ∈ st.files
    · rw [if_pos hmem]
      cases hrm : env.removeRes k with
      | some e => exact ⟨st.files, rfl⟩
      | none => exact ih (k + 1) _
    · rw [if_neg hmem]
      exact ih (k + 1) st

theorem rmdirStep_output (env : JobEnv) (st : JobState) :
    (rmdirStep env st).output = st.output ∧ (rmdirStep env st).text = st.text ∧
    (rmdirStep env st).files = st.files ∧ (rmdirStep env st).log = st.log := by
  rw [rmdirStep]
  split_ifs <;> exact ⟨rfl, rfl, rfl, rfl⟩

/-- The output file always holds its initial bytes followed by exactly the
in-memory accumulated transcript, on every path through `process_file`. -/
theorem process_file_output_eq (env : JobEnv) :
    ((process_file env).1).output = env.initOutput ++ ((process_file env).1).text := by
  rw [process_file]
  cases hsp : env.split.2 with
  | error e => simp
  | ok segs =>
    simp only
    have hbase :
        (JobState.mk env.initOutput env.header [] env.split.1 true []).output =
          env.initOutput ++ (JobState.mk env.initOutput env.header [] env.split.1 true []).text := by
      simp
    have hinv := runLoop_inv env env.initOutput segs 0 _ hbase
    rcases hrl : runLoop env 0 segs
        (JobState.mk env.initOutput env.header [] env.split.1 true []) with ⟨st1, err⟩
    rw [hrl] at hinv
    cases err with
    | some e => simpa using hinv
    | none =>
      simp only
      obtain ⟨fl, hfl⟩ := removeFiles_eta env segs 0 st1
      rcases hrm : removeFiles env 0 segs st1 with ⟨st2, err2⟩
      rw [hrm] at hfl
      have hfl2 : st2 = { st1 with files := fl } := hfl
      cases err2 with
      | some e =>
        simp only [hfl2]
        simpa using hinv
      | none =>
        simp only
        obtain ⟨ho, ht, -, -⟩ := rmdirStep_output env st2
        rw [ho, ht, hfl2]
        simpa using hinv

/-- Whenever `process_file` re-raises an exception `e`, the final log
content ends with the `ERREUR` line for `e`. -/
theorem process_file_error_log (env : JobEnv) (e : Str)
    (h : (process_file env).2 = .error e) :
    ∃ l0, ((process_file env).1).log = l0 ++ errLine e := by
  rw [process_file] at h ⊢
  cases hsp : env.split.2 with
  | error e2 =>
    rw [hsp] at h
    simp only at h ⊢
    injection h with he
    subst he
    exact ⟨_, rfl⟩
  | ok segs =>
    rw [hsp] at h
    simp only at h ⊢
    rcases hrl : runLoop env 0 segs
        (JobState.mk env.initOutput env.header [] env.split.1 true []) with ⟨st1, err⟩
    rw [hrl] at h
    cases err with
    | some e2 =>
      simp only at h ⊢
      injection h with he
      subst he
      exact ⟨_, rfl⟩
    | none =>
      simp only at h ⊢
      rcases hrm : removeFiles env 0 segs st1 with ⟨st2, err2⟩
      rw [hrm] at h
      cases err2 with
      | some e2 =>
        simp only at h ⊢
        injection h with he
        subst he
        exact ⟨_, rfl⟩
      | none => exact (Except.noConfusion h)

theorem runLoop_ok_eq (env : JobEnv) :
    ∀ (l : List Str) (i : ℕ) (st : JobState),
      (∀ j, j < l.length → ∃ t, env.transcribe (i + j) = .ok t) →
      runLoop env i l st =
        ({ st with text := st.text ++ loopText env.transcribe i l.length,
                   output := st.output ++ loopText env.transcribe i l.length,
                   log := st.log ++ loopLog env.segLogLine i l.length }, none) := by
  intro l
  induction l with
  | nil =>
    intro i st h
    simp [runLoop, loopText, loopLog]
  | cons s rest ih =>
    intro i st h
    obtain ⟨t, ht⟩ := h 0 (by simp)
    rw [Nat.add_zero] at ht
    rw [runLoop, ht]
    dsimp only
    have hshift : ∀ j, j < rest.length → ∃ u, env.transcribe (i + 1 + j) = .ok u := by
      intro j hj
      have := h (j + 1) (by simp; omega)
      rwa [show i + (j + 1) = i + 1 + j by omega] at this
    rw [ih (i + 1) _ hshift]
    simp only [List.length_cons, loopText, loopLog, ht, List.append_assoc]

theorem removeFiles_clean (env : JobEnv) (hrm : ∀ k, env.removeRes k = none) :
    ∀ (l : List Str) (k : ℕ) (st : JobState), st.files = l →
      removeFiles env k l st = ({ st with files := [] }, none) := by
  intro l
  induction l with
  | nil =>
    intro k st hf
    rw [removeFiles, show ({ st with files := [] } : JobState) = st from by rw [← hf]]
  | cons s rest ih =>
    intro k st hf
    rw [removeFiles, if_pos (by rw [hf]; exact List.mem_cons_self s rest), hrm k]
    have herase : st.files.erase s = rest := by
      rw [hf]
      exact List.erase_cons_head s rest
    rw [ih (k + 1) _ (by simpa using herase)]

theorem runLoop_initLog (env : JobEnv) (l : Str) :
    ∀ (ls : List Str) (i : ℕ) (st : JobState),
      runLoop { env with initLog := l } i ls st = runLoop env i ls st := by
  intro ls
  induction ls with
  | nil => intro i st; rfl
  | cons s rest ih =>
    intro i st
    rw [runLoop, runLoop]
    cases htr : env.transcribe i with
    | error e => rfl
    | ok t =>
      exact ih (i + 1) _

theorem removeFiles_initLog (env : JobEnv) (l : Str) :
    ∀ (ls : List Str) (k : ℕ) (st : JobState),
      removeFiles { env with initLog := l } k ls st = removeFiles env k ls st := by
  intro ls
  induction ls with
  | nil => intro k st; rfl
  | cons s rest ih =>
    intro k st
    rw [removeFiles, removeFiles]
    by_cases hmem : s ∈ st.files
    · rw [if_pos hmem, if_pos hmem]
      cases hrm : env.removeRes k with
      | some e => rfl
      | none =>
        exact ih (k + 1) _
    · rw [if_neg hmem, if_neg hmem]
      exact ih (k + 1) st

/-- C6: whenever `process_file` ends in an uncaught exception `e` (raised
during segmentation, the per-segment loop, or the cleanup removes), the
error text is appended to the log (`\nERREUR: e\n` is a suffix of the final
log) and the same failure `e` is re-raised to the caller, while the output
file is exactly its initial bytes followed by the fragments already
appended — the error path does not modify the output file. -/
theorem C6_error_logged_and_reraised (env : JobEnv) (e : Str)
    (h : (process_file env).2 = .error e) :
    (∃ l0, ((process_file env).1).log = l0 ++ errLine e) ∧
    ((process_file env).1).output = env.initOutput ++ ((process_file env).1).text :=
  ⟨process_file_error_log env e h, process_file_output_eq env⟩

/-- C6 witness: the concrete job whose second segment raises `boom`. -/
theorem C6_error_logged_and_reraised_witness :
    (∃ l0, ((process_file envSegFail).1).log = l0 ++ errLine ("boom".data)) ∧
    ((process_file envSegFail).1).output =
      envSegFail.initOutput ++ ((process_file envSegFail).1).text :=
  C6_error_logged_and_reraised envSegFail ("boom".data) rfl

/-- C10: the orchestrator only appends to the output file: its final
content is the pre-existing bytes followed by the segment fragments, on
every run (success or failure); and the log file is truncated at job start
(the run's outcome does not depend on the log's previous content). -/
theorem C10_output_append_only_log_truncated (env : JobEnv) :
    ((process_file env).1).output = env.initOutput ++ ((process_file env).1).text ∧
    (∀ l : Str, process_file { env with initLog := l } = process_file env) := by
  refine ⟨process_file_output_eq env, fun l => ?_⟩
  rw [process_file, process_file]
  cases hsp : env.split.2 with
  | error e => rfl
  | ok segs =>
    dsimp only
    rw [runLoop_initLog]
    rcases hrl : runLoop env 0 segs
        (JobState.mk env.initOutput env.header [] env.split.1 true []) with ⟨st1, err⟩
    cases err with
    | some e => rfl
    | none =>
      dsimp only
      rw [removeFiles_initLog]
      rcases hrm : removeFiles env 0 segs st1 with ⟨st2, err2⟩
      cases err2 with
      | some e => rfl
      | none => rfl

/-- C4 (amended): cleanup runs only on the success path — after every
segment transcribed, it deletes every segment file; a failing `os.rmdir` of
the temporary folder only prints a warning and the job still succeeds.
(When a later segment's transcription fails, the cleanup phase is never
reached and no segment file is deleted — see the counterexample.) -/
theorem C4_cleanup_on_success (env : JobEnv) (segs : List Str)
    (hsp : env.split = (segs, .ok segs))
    (htr : ∀ j, j < segs.length → ∃ t, env.transcribe j = .ok t)
    (hrm : ∀ k, env.removeRes k = none) :
    (process_file env).2 = .ok () ∧
    ((process_file env).1).files = [] ∧
    (env.rmdirOk = true → ((process_file env).1).tempDirExists = false) ∧
    (env.rmdirOk = false →
      ((process_file env).1).tempDirExists = true ∧
      rmdirWarning ∈ ((process_file env).1).warnings) := by
  have h2 : env.split.2 = .ok segs := by rw [hsp]
  have h1 : env.split.1 = segs := by rw [hsp]
  rw [process_file, h2]
  simp only
  have htr0 : ∀ j, j < segs.length → ∃ t, env.transcribe (0 + j) = .ok t := by
    intro j hj
    rw [Nat.zero_add]
    exact htr j hj
  rw [runLoop_ok_eq env segs 0 _ htr0]
  simp only
  rw [removeFiles_clean env hrm segs 0 _ (by simp [h1])]
  simp only [rmdirStep]
  cases hb : env.rmdirOk with
  | true => simp
  | false => simp

/-- C4 witness: a two-segment job where both segments transcribe, cleanup
deletes both files, and the failing `rmdir` only leaves a warning. -/
theorem C4_cleanup_on_success_witness :
    (process_file envAllOk).2 = .ok () ∧
    ((process_file envAllOk).1).files = [] ∧
    (envAllOk.rmdirOk = true → ((process_file envAllOk).1).tempDirExists = false) ∧
    (envAllOk.rmdirOk = false →
      ((process_file envAllOk).1).tempDirExists = true ∧
      rmdirWarning ∈ ((process_file envAllOk).1).warnings) :=
  C4_cleanup_on_success envAllOk (["s0".data, "s1".data]) rfl
    (fun _ _ => ⟨_, rfl⟩) (fun _ => rfl)

/-- C4 counterexample: in the concrete job whose second segment's
transcription fails, the job aborts with that error and both successfully
created segment files are still on disk — the claim that every created
segment file is deleted regardless of a later transcription failure is
false of the code. -/
theorem C4_counterexample_no_cleanup_on_failure :
    (process_file envSegFail).2 = .error ("boom".data) ∧
    ((process_file envSegFail).1).files = ["s0".data, "s1".data] ∧
    ((process_file envSegFail).1).files ≠ [] :=
  ⟨rfl, rfl, by
    intro hx
    rw [show ((process_file envSegFail).1).files = ["s0".data, "s1".data] from rfl] at hx
    cases hx⟩

/-! ## Lemmas about the separator structure of the transcript -/

theorem allTextAux_shift (texts : List Str) :
    ∀ k, k ≠ 0 → allTextAux k texts = (texts.map fun t => SEP ++ t).flatten := by
  induction texts with
  | nil => intro k hk; rfl
  | cons t rest ih =>
    intro k hk
    rw [allTextAux, if_neg hk, List.map_cons, List.flatten_cons,
      ih (k + 1) (Nat.succ_ne_zero k)]

theorem join_intersperse (t : Str) (rest : List Str) :
    (List.intersperse SEP (t :: rest)).flatten = t ++ (rest.map fun u => SEP ++ u).flatten := by
  induction rest generalizing t with
  | nil => simp [List.intersperse]
  | cons b l ih =>
    rw [show List.intersperse SEP (t :: b :: l) = t :: SEP :: List.intersperse SEP (b :: l)
        from rfl]
    rw [List.flatten_cons, List.flatten_cons, ih b, List.map_cons, List.flatten_cons]
    simp [List.append_assoc]

theorem allText_join_intersperse (texts : List Str) :
    allText texts = (List.intersperse SEP texts).flatten := by
  cases texts with
  | nil => rfl
  | cons t rest =>
    rw [allText, allTextAux, if_pos rfl, allTextAux_shift rest 1 one_ne_zero,
      join_intersperse]

theorem intersperse_count_sep (texts : List Str) :
    (List.intersperse SEP texts).count SEP = texts.count SEP + (texts.length - 1) := by
  induction texts with
  | nil => simp
  | cons t rest ih =>
    cases rest with
    | nil => simp [List.intersperse]
    | cons b l =>
      rw [show List.intersperse SEP (t :: b :: l) = t :: SEP :: List.intersperse SEP (b :: l)
          from rfl]
      simp only [List.count_cons, ih, List.length_cons, beq_iff_eq]
      by_cases h1 : SEP = t <;> by_cases h2 : SEP = b <;> simp [h1, h2] <;> omega

theorem loopText_eq (tr : ℕ → Except Str Str) :
    ∀ (texts : List Str) (i : ℕ),
      (∀ j, (hj : j < texts.length) → tr (i + j) = .ok (texts.get ⟨j, hj⟩)) →
      loopText tr i texts.length = allTextAux i texts := by
  intro texts
  induction texts with
  | nil => intro i h; rfl
  | cons t rest ih =>
    intro i h
    have h0 : tr i = .ok t := by
      have := h 0 (by simp)
      simpa using this
    rw [List.length_cons, loopText, h0, allTextAux]
    have hshift : ∀ j, (hj : j < rest.length) → tr (i + 1 + j) = .ok (rest.get ⟨j, hj⟩) := by
      intro j hj
      have := h (j + 1) (by simpa using Nat.succ_lt_succ hj)
      rwa [show i + (j + 1) = i + 1 + j by omega] at this
    rw [ih (i + 1) hshift]

theorem process_file_text_ok (env : JobEnv) (segs : List Str)
    (hsp : env.split.2 = .ok segs)
    (hok : ∀ j, j < segs.length → ∃ t, env.transcribe (0 + j) = .ok t) :
    ((process_file env).1).text = loopText env.transcribe 0 segs.length := by
  rw [process_file, hsp]
  dsimp only
  rw [runLoop_ok_eq env segs 0 _ hok]
  dsimp only
  obtain ⟨fl, hfl⟩ := removeFiles_eta env segs 0
    { output := env.initOutput ++ loopText env.transcribe 0 segs.length,
      log := env.header ++ loopLog env.segLogLine 0 segs.length,
      text := [] ++ loopText env.transcribe 0 segs.length,
      files := env.split.1, tempDirExists := true, warnings := [] }
  rcases hrm : removeFiles env 0 segs
    { output := env.initOutput ++ loopText env.transcribe 0 segs.length,
      log := env.header ++ loopLog env.segLogLine 0 segs.length,
      text := [] ++ loopText env.transcribe 0 segs.length,
      files := env.split.1, tempDirExists := true, warnings := [] } with ⟨st2, err2⟩
  rw [hrm] at hfl
  have hfl2 : st2 = _ := hfl
  cases err2 with
  | some e =>
    rw [hfl2]
    simp
  | none =>
    dsimp only
    obtain ⟨-, ht, -, -⟩ := rmdirStep_output env st2
    rw [ht, hfl2]
    simp

/-- C2 (amended): for a job with `n` transcribed segment texts, the
in-memory transcript is exactly the texts joined with the literal marker
inserted once between each pair of consecutive texts and never before
segment 0 (`intersperse`); the marker appears in that interspersed list
exactly `n - 1` times beyond any occurrences among the texts themselves;
and the bytes of the output file are its initial content followed by that
same concatenation.  (The raw substring-occurrence count of the marker in
the transcript equals `n - 1` only when the segment texts contain no
marker-like content — see the counterexample.) -/
theorem C2_separator_structure (env : JobEnv) (segs texts : List Str)
    (hsp : env.split.2 = .ok segs) (hlen : segs.length = texts.length)
    (htr : ∀ j, (hj : j < texts.length) → env.transcribe j = .ok (texts.get ⟨j, hj⟩)) :
    allText texts = (List.intersperse SEP texts).flatten ∧
    (List.intersperse SEP texts).count SEP = texts.count SEP + (texts.length - 1) ∧
    ((process_file env).1).text = allText texts ∧
    ((process_file env).1).output = env.initOutput ++ allText texts := by
  have hok : ∀ j, j < segs.length → ∃ t, env.transcribe (0 + j) = .ok t := by
    intro j hj
    rw [Nat.zero_add]
    exact ⟨_, htr j (hlen ▸ hj)⟩
  have htext : ((process_file env).1).text = allText texts := by
    rw [process_file_text_ok env segs hsp hok, hlen,
      loopText_eq env.transcribe texts 0 (fun j hj => by rw [Nat.zero_add]; exact htr j hj),
      allText]
  exact ⟨allText_join_intersperse texts, intersperse_count_sep texts, htext,
    by rw [process_file_output_eq env, htext]⟩

/-- C2 witness: the two-segment job with texts `a` and `b`. -/
theorem C2_separator_structure_witness :
    envAllOk.split.2 = .ok (["s0".data, "s1".data]) ∧
    (["s0".data, "s1".data] : List Str).length = (["a".data, "b".data] : List Str).length ∧
      (allText ["a".data, "b".data] =
          (List.intersperse SEP ["a".data, "b".data]).flatten ∧
       (List.intersperse SEP ["a".data, "b".data]).count SEP =
          (["a".data, "b".data] : List Str).count SEP +
            ((["a".data, "b".data] : List Str).length - 1) ∧
       ((process_file envAllOk).1).text = allText ["a".data, "b".data] ∧
       ((process_file envAllOk).1).output =
          envAllOk.initOutput ++ allText ["a".data, "b".data]) :=
  ⟨rfl, rfl,
    C2_separator_structure envAllOk (["s0".data, "s1".data]) (["a".data, "b".data]) rfl rfl
      (by
        intro j hj
        rcases j with - | j
        · rfl
        · rcases j with - | j
          · rfl
          · exact absurd hj (by simp))⟩

/-- C2 counterexample: a job of `n = 2` segments whose first segment text
is itself the marker yields a transcript with 2 substring occurrences of
the marker, not `n - 1 = 1` — so the claim's substring-occurrence count is
false as stated. -/
theorem C2_counterexample_marker_in_text :
    countSubstr (allText [SEP, []]) SEP = 2 ∧
    ([SEP, ([] : Str)] : List Str).length - 1 = 1 ∧ (2 : ℕ) ≠ 1 :=
  ⟨rfl, rfl, by decide⟩

/-- C5: when the media-inspection output has no parsable `HH:MM:SS.cc`
duration token, `get_audio_duration` raises its `ValueError`, and
`split_audio` propagates it before building any extraction command: no
ffmpeg command is issued and zero segment files are created. -/
theorem C5_duration_unavailable (stderrOut audio temp : Str) (chunkMin : ℕ)
    (extractOk : ℕ → Bool) (h : parseDuration stderrOut = none) :
    get_audio_duration stderrOut = .error durErrMsg ∧
    (split_audio stderrOut audio temp chunkMin extractOk).cmds = [] ∧
    (split_audio stderrOut audio temp chunkMin extractOk).files = [] ∧
    (split_audio stderrOut audio temp chunkMin extractOk).result = .error durErrMsg := by
  have hg : get_audio_duration stderrOut = .error durErrMsg := by
    rw [get_audio_duration, h]
  refine ⟨hg, ?_, ?_, ?_⟩ <;> rw [split_audio, hg]

/-- C5 witness: a diagnostic output with no duration token. -/
theorem C5_duration_unavailable_witness :
    parseDuration ("no duration here".data) = none ∧
      (get_audio_duration ("no duration here".data) = .error durErrMsg ∧
       (split_audio ("no duration here".data) ("a.mp3".data) ("temp_audio".data) 10
          (fun _ => true)).cmds = [] ∧
       (split_audio ("no duration here".data) ("a.mp3".data) ("temp_audio".data) 10
          (fun _ => true)).files = [] ∧
       (split_audio ("no duration here".data) ("a.mp3".data) ("temp_audio".data) 10
          (fun _ => true)).result = .error durErrMsg) :=
  ⟨rfl, C5_duration_unavailable _ _ _ 10 (fun _ => true) rfl⟩

/-! ## Lemmas about the AssemblyAI backend -/

theorem pollLoop_first_terminal (poll : ℕ → AaiResp) :
    ∀ (k fuel k0 slept : ℕ), k < fuel →
      (∀ j, j < k → (poll (k0 + j)).status ≠ ("completed".data) ∧
        (poll (k0 + j)).status ≠ ("error".data)) →
      pollLoop poll fuel k0 slept = pollLoop poll (fuel - k) (k0 + k) (slept + 5 * k) := by
  intro k
  induction k with
  | zero => intro fuel k0 slept hf h; simp
  | succ k ih =>
    intro fuel k0 slept hf h
    obtain ⟨f, rfl⟩ : ∃ f, fuel = f + 1 := ⟨fuel - 1, by omega⟩
    rw [pollLoop]
    have h0 := h 0 (by omega)
    rw [Nat.add_zero] at h0
    dsimp only
    rw [if_neg h0.1, if_neg h0.2]
    rw [ih f (k0 + 1) (slept + 5) (by omega) ?_]
    · rw [show k0 + 1 + k = k0 + (k + 1) by omega,
        show slept + 5 + 5 * k = slept + 5 * (k + 1) by ring,
        show f - k = f + 1 - (k + 1) by omega]
    · intro j hj
      have := h (j + 1) (by omega)
      rwa [show k0 + (j + 1) = k0 + 1 + j by omega] at this

/-- C7: with a configured key and accepted upload/submit requests, if the
first `k` polled statuses are non-terminal then the loop has slept 5
seconds between each of those polls (`5 * k` seconds in total); when the
`k`-th status is `error` the backend returns the empty string without
raising, and when it is `completed` it returns the provider's text;
any other status keeps the loop polling. -/
theorem C7_assemblyai_terminal_status (env : AaiEnv) (fuel k : ℕ)
    (hkey : env.apiKey ≠ plcAAI) (hup : env.upload = .ok 200) (hsub : env.submit = .ok 200)
    (hpre : ∀ j, j < k → (env.poll j).status ≠ ("completed".data) ∧
      (env.poll j).status ≠ ("error".data))
    (hfuel : k < fuel) :
    ((env.poll k).status = ("error".data) →
      pollLoop env.poll fuel 0 0 = some ([], 5 * k) ∧
      transcribe_segment_assemblyai env fuel = ([], .ok (some []))) ∧
    ((env.poll k).status = ("completed".data) →
      pollLoop env.poll fuel 0 0 = some ((env.poll k).text, 5 * k) ∧
      transcribe_segment_assemblyai env fuel = ([], .ok (some (env.poll k).text))) := by
  have hskip := pollLoop_first_terminal env.poll k fuel 0 0 hfuel
    (by intro j hj; have := hpre j hj; simpa using this)
  rw [Nat.zero_add, Nat.zero_add] at hskip
  obtain ⟨m, hm⟩ : ∃ m, fuel - k = m + 1 := ⟨fuel - k - 1, by omega⟩
  rw [hm] at hskip
  have hcne : ("error".data : Str) ≠ ("completed".data) := by decide
  constructor
  · intro hst
    have hpl : pollLoop env.poll fuel 0 0 = some ([], 5 * k) := by
      rw [hskip, pollLoop]
      dsimp only
      rw [if_neg (by rw [hst]; exact hcne), if_pos hst]
    refine ⟨hpl, ?_⟩
    rw [transcribe_segment_assemblyai, if_neg hkey, hup]
    dsimp only
    rw [if_neg (by simp), hsub]
    dsimp only
    rw [if_neg (by simp), hpl]
  · intro hst
    have hpl : pollLoop env.poll fuel 0 0 = some ((env.poll k).text, 5 * k) := by
      rw [hskip, pollLoop]
      dsimp only
      rw [if_pos hst]
    refine ⟨hpl, ?_⟩
    rw [transcribe_segment_assemblyai, if_neg hkey, hup]
    dsimp only
    rw [if_neg (by simp), hsub]
    dsimp only
    rw [if_neg (by simp), hpl]

/-- C7 witness: two non-terminal polls (10 s slept) and then `error` — the
call returns the empty string without raising. -/
theorem C7_assemblyai_terminal_status_witness :
    aaiTermEnv.apiKey ≠ plcAAI ∧
    (∀ j, j < 2 → (aaiTermEnv.poll j).status ≠ ("completed".data) ∧
      (aaiTermEnv.poll j).status ≠ ("error".data)) ∧
      (((aaiTermEnv.poll 2).status = ("error".data) →
        pollLoop aaiTermEnv.poll 4 0 0 = some ([], 5 * 2) ∧
        transcribe_segment_assemblyai aaiTermEnv 4 = ([], .ok (some []))) ∧
      ((aaiTermEnv.poll 2).status = ("completed".data) →
        pollLoop aaiTermEnv.poll 4 0 0 = some ((aaiTermEnv.poll 2).text, 5 * 2) ∧
        transcribe_segment_assemblyai aaiTermEnv 4 =
          ([], .ok (some (aaiTermEnv.poll 2).text)))) :=
  ⟨by decide, by decide,
    C7_assemblyai_terminal_status aaiTermEnv 4 2 (by decide) rfl rfl (by decide) (by decide)⟩

/-- C8: a remote backend invoked while its API key still holds the
placeholder refuses before any network call: it prints the configuration
warning and returns the empty string, and cannot raise whatever the
network outcomes would have been (they are universally quantified). -/
theorem C8_placeholder_credentials (aai : AaiEnv) (fuel : ℕ) (oaiCall : Except Str Str)
    (hkey : aai.apiKey = plcAAI) :
    transcribe_segment_assemblyai aai fuel = ([warnAAI], .ok (some [])) ∧
    transcribe_segment_openai plcOAI oaiCall = ([warnOAI], .ok []) := by
  constructor
  · rw [transcribe_segment_assemblyai, if_pos hkey]
  · rw [transcribe_segment_openai, if_pos rfl]

/-- C8 witness: placeholder keys with a network that would raise on any
request; both backends still return the empty string with a warning. -/
theorem C8_placeholder_credentials_witness :
    aaiPlaceholderEnv.apiKey = plcAAI ∧
      (transcribe_segment_assemblyai aaiPlaceholderEnv 3 = ([warnAAI], .ok (some [])) ∧
       transcribe_segment_openai plcOAI (.error ("network down".data)) =
         ([warnOAI], .ok [])) :=
  ⟨rfl, C8_placeholder_credentials aaiPlaceholderEnv 3 (.error ("network down".data)) rfl⟩

end Transcription
